import Mathlib

set_option maxRecDepth 8000
set_option exponentiation.threshold 1100

/-!
Verification development for the client-side PDF toolkit.

The development shallowly embeds the repository's document-processing job
engine: the page-range parser (`parsePageList`, `parsePageGroups` from the
main UI module), the minimal ZIP encoder (`buildZip`, `crc32` from
`engine.worker.ts`), the qpdf-backed decrypt/compress adapter
(`decryptRun`, `compressRun`) over an explicit virtual file system, the
four worker operations (`mergeRun`, `splitRun`, `compressRun`,
`pdf2imgRun`) as event-trace producers, the worker dispatch handler
(`handleMessage`), and the requester-side submission logic (`runJob`).

Modelling conventions:
- JavaScript numbers are modelled as exact rationals (ℚ).  Floating-point
  rounding is not modelled, except that `Number(...)` results at or above
  2^1024 are mapped to "not finite" (JS Infinity).  The percent values in
  progress events are natural numbers and `Math.floor` of a quotient is
  natural division.
- External collaborators (pdf-lib document loading/copying/saving, the
  MuPDF renderer, and the qpdf `callMain` entry point) are abstracted by
  oracle parameters that return either a value or a thrown error message,
  exactly at the call sites where the worker awaits them.  The qpdf
  oracle is a function of the argument list that the worker passes, so
  that argument-equality is observable.
- The qpdf virtual file system (Emscripten MEMFS) is an association list
  from path to byte list; `FS.writeFile` / `FS.readFile` / `FS.unlink`
  become `fsWrite` / `fsRead` / `fsUnlink`.
- Byte buffers are lists of naturals (each intended < 256).
-/

namespace PdfTool

section

attribute [local semireducible] Rat.add Rat.mul Rat.sub Rat.inv Rat.ofScientific

/-- Bytes of a buffer (`Uint8Array` / `ArrayBuffer`) as a list of naturals. -/
abbrev Bytes := List Nat

/-- Decimal digits of a natural number, via a structural fuel argument so
that the kernel can evaluate it. -/
def natStrAux : Nat → Nat → List Char
  | 0, _ => []
  | fuel + 1, n =>
    if n < 10 then [Char.ofNat (48 + n)]
    else natStrAux fuel (n / 10) ++ [Char.ofNat (48 + n % 10)]

/-- Render a natural number in decimal, as JavaScript string interpolation does. -/
def natStr (n : Nat) : String := String.mk (natStrAux (n + 1) n)

/-- Render an integer in decimal. -/
def intStr (i : ℤ) : String :=
  if i < 0 then "-" ++ natStr i.natAbs else natStr i.natAbs

/-- Render a JS number (modelled as ℚ).  Integral values render in decimal
exactly as JavaScript prints them; the (claim-irrelevant) rendering of
non-integral values is abstracted as `num/den`. -/
def jsNumToString (q : ℚ) : String :=
  if q.den = 1 then intStr q.num else intStr q.num ++ "/" ++ natStr q.den

/-- Join a list of strings with a separator (`Array.prototype.join`). -/
def joinWith (sep : String) : List String → String
  | [] => ""
  | [x] => x
  | x :: xs => x ++ sep ++ joinWith sep xs

/-- Boolean prefix test on character lists. -/
def isPrefixB : List Char → List Char → Bool
  | [], _ => true
  | _ :: _, [] => false
  | a :: as, b :: bs => a = b && isPrefixB as bs

/-- Boolean substring test on character lists. -/
def containsSub (needle : List Char) : List Char → Bool
  | [] => needle.isEmpty
  | c :: rest => isPrefixB needle (c :: rest) || containsSub needle rest

/-- Case-insensitive substring test: models `/needle/i.test(hay)` for a
regex that is a plain literal word. -/
def containsCI (hay needle : String) : Bool :=
  containsSub (needle.data.map Char.toLower) (hay.data.map Char.toLower)

/-- Whitespace in the sense of JS `String.prototype.trim` and regex `\s`. -/
def isJsWS (c : Char) : Bool :=
  c = ' ' || c = '\t' || c = '\n' || c = '\r' ||
  c.toNat = 11 || c.toNat = 12 || c.toNat = 160 ||
  c.toNat = 0xfeff || c.toNat = 0x2028 || c.toNat = 0x2029

/-- JS `String.prototype.trim` on a character list. -/
def trimChars (t : List Char) : List Char :=
  ((t.dropWhile isJsWS).reverse.dropWhile isJsWS).reverse

/-- Split a character list at every separator character satisfying `p`,
as `String.prototype.split` does (keeping empty chunks; the empty string
yields one empty chunk). -/
def splitOnPred (p : Char → Bool) : List Char → List (List Char)
  | [] => [[]]
  | c :: rest =>
    if p c then [] :: splitOnPred p rest
    else match splitOnPred p rest with
      | [] => [[c]]
      | chunk :: chunks => (c :: chunk) :: chunks

/-- Numeric value of a list of decimal digit characters. -/
def digitsToNat (ds : List Char) : Nat :=
  ds.foldl (fun a c => a * 10 + (c.toNat - 48)) 0

/-- Value of a single hexadecimal digit character. -/
def hexDigitVal (c : Char) : Option Nat :=
  if 48 ≤ c.toNat ∧ c.toNat ≤ 57 then some (c.toNat - 48)
  else if 97 ≤ c.toNat ∧ c.toNat ≤ 102 then some (c.toNat - 87)
  else if 65 ≤ c.toNat ∧ c.toNat ≤ 70 then some (c.toNat - 55)
  else none

/-- Value of a digit character in the given base (2, 8 or 16), if valid. -/
def radixVal (base : Nat) (c : Char) : Option Nat :=
  (hexDigitVal c).bind fun v => if v < base then some v else none

/-- Numeric value of a digit string in the given base; `none` when any
character is invalid.  The empty string evaluates to `some 0`, callers
require non-emptiness separately. -/
def radixToNat (base : Nat) (ds : List Char) : Option Nat :=
  ds.foldl (fun acc c => acc.bind fun a => (radixVal base c).map fun v => a * base + v)
    (some 0)

/-- Ten to an integer power, as an exact rational. -/
def pow10 (e : ℤ) : ℚ :=
  if 0 ≤ e then (10 : ℚ) ^ e.toNat else 1 / (10 : ℚ) ^ (-e).toNat

/-- First JS double that is no longer finite: values of this magnitude or
above become `Infinity`. -/
def jsOverflow : ℚ := ((2 ^ 1024 : ℕ) : ℚ)

/-- Optional exponent part of a JS decimal literal (`e`/`E`, optional
sign, at least one digit, and nothing after it). -/
def parseExp : List Char → Option ℤ
  | [] => some 0
  | c :: rest =>
    if c = 'e' ∨ c = 'E' then
      match rest with
      | '+' :: ds =>
        if ds ≠ [] ∧ ds.all Char.isDigit then some (digitsToNat ds : ℤ) else none
      | '-' :: ds =>
        if ds ≠ [] ∧ ds.all Char.isDigit then some (-(digitsToNat ds : ℤ)) else none
      | ds =>
        if ds ≠ [] ∧ ds.all Char.isDigit then some (digitsToNat ds : ℤ) else none
    else none

/-- Unsigned JS decimal literal: `digits [. digits] [exp]` or `. digits [exp]`. -/
def parseDecCore (t : List Char) : Option ℚ :=
  let ip := t.takeWhile Char.isDigit
  let r1 := t.dropWhile Char.isDigit
  match r1 with
  | '.' :: r2 =>
    let fp := r2.takeWhile Char.isDigit
    let r3 := r2.dropWhile Char.isDigit
    if ip = [] ∧ fp = [] then none
    else (parseExp r3).map fun e =>
      ((digitsToNat ip : ℚ) + (digitsToNat fp : ℚ) / (10 : ℚ) ^ fp.length) * pow10 e
  | _ =>
    if ip = [] then none
    else (parseExp r1).map fun e => (digitsToNat ip : ℚ) * pow10 e

/-- Unsigned JS numeric literal: decimal, or a `0x`/`0o`/`0b` integer. -/
def parseUnsigned (t : List Char) : Option ℚ :=
  match t with
  | '0' :: c :: rest =>
    if c = 'x' ∨ c = 'X' then
      if rest ≠ [] then (radixToNat 16 rest).map (fun n => (n : ℚ)) else none
    else if c = 'o' ∨ c = 'O' then
      if rest ≠ [] then (radixToNat 8 rest).map (fun n => (n : ℚ)) else none
    else if c = 'b' ∨ c = 'B' then
      if rest ≠ [] then (radixToNat 2 rest).map (fun n => (n : ℚ)) else none
    else parseDecCore t
  | _ => parseDecCore t

/-- Models `Number(p)` followed by the `Number.isFinite` test on an
already-trimmed token: `none` means NaN or infinite.  A sign is only
admitted before a decimal literal (signed hex is NaN in JS); `Infinity`
is non-finite; values at or above 2^1024 overflow to Infinity. -/
def jsFiniteNumber (t : List Char) : Option ℚ :=
  if t.isEmpty then some 0
  else
    match t with
    | '+' :: r =>
      if r = "Infinity".data then none
      else (parseDecCore r).bind fun q => if jsOverflow ≤ q then none else some q
    | '-' :: r =>
      if r = "Infinity".data then none
      else (parseDecCore r).bind fun q => if jsOverflow ≤ q then none else some (-q)
    | r =>
      if r = "Infinity".data then none
      else (parseUnsigned r).bind fun q => if jsOverflow ≤ q then none else some q

/-- Dedup (JS `Set` keeps one representative per value) then sort
ascending (JS `sort((a,b) => a-b)`); on duplicate-free values the sorted
arrangement is unique, so `insertionSort` matches the JS sort exactly. -/
def sortDedup (l : List ℚ) : List ℚ :=
  List.insertionSort (fun a b => a ≤ b) l.dedup

/-- Match of the range-token regex `^([0-9]+)\s*-\s*([0-9]+)$` on an
already-trimmed token, returning the two captured numbers. -/
def parseRange (t : List Char) : Option (Nat × Nat) :=
  let d1 := t.takeWhile Char.isDigit
  let r1 := t.dropWhile Char.isDigit
  if d1 = [] then none
  else
    match r1.dropWhile isJsWS with
    | '-' :: r3 =>
      let r4 := r3.dropWhile isJsWS
      let d2 := r4.takeWhile Char.isDigit
      let r5 := r4.dropWhile Char.isDigit
      if d2 = [] ∨ r5 ≠ [] then none else some (digitsToNat d1, digitsToNat d2)
    | _ => none

/-- Inclusive range of naturals from `lo` to `hi` (the loop
`for (let x = lo; x <= hi; x++) out.push(x)`). -/
def rangeList (lo hi : Nat) : List Nat := List.range' lo (hi + 1 - lo)

/-- Token-by-token collection loop of `parsePageList`: expand matched
range tokens (order-insensitive via min/max, no positivity filter),
keep single numeric tokens only when finite and strictly positive, and
silently skip empty or non-numeric tokens. -/
def collectTokens : List (List Char) → List ℚ
  | [] => []
  | t :: rest =>
    let p := trimChars t
    if p = [] then collectTokens rest
    else
      match parseRange p with
      | some (a, b) =>
        (rangeList (min a b) (max a b)).map (fun n : ℕ => (n : ℚ)) ++ collectTokens rest
      | none =>
        match jsFiniteNumber p with
        | some n => if 0 < n then n :: collectTokens rest else collectTokens rest
        | none => collectTokens rest

/-- Model of `parsePageList` (main UI module): split the input on commas,
process each token, then deduplicate and sort ascending. -/
def parsePageList (input : String) : List ℚ :=
  sortDedup (collectTokens (splitOnPred (fun c => c = ',') input.data))

/-- Result of the grouped parser: the flat union and the ordered groups. -/
structure PageGroups where
  flat : List ℚ
  groups : List (List ℚ)
deriving DecidableEq, Repr

/-- Group-collection loop of `parsePageGroups`: each chunk (split on `;`
or newline) is trimmed, skipped when empty, parsed with the flat parser,
and kept only when non-empty. -/
def collectGroups : List (List Char) → List (List ℚ)
  | [] => []
  | chunk :: rest =>
    let trimmed := trimChars chunk
    if trimmed = [] then collectGroups rest
    else
      let list := sortDedup (collectTokens (splitOnPred (fun c => c = ',') trimmed))
      if list = [] then collectGroups rest else list :: collectGroups rest

/-- Model of `parsePageGroups` (main UI module). -/
def parsePageGroups (input : String) : PageGroups :=
  let groups := collectGroups (splitOnPred (fun c => c = ';' ∨ c = '\n') input.data)
  { flat := sortDedup groups.flatten, groups := groups }

/-- Little-endian 16-bit field (`DataView.setUint16(…, true)` truncates
modulo 2^16). -/
def le16 (v : Nat) : Bytes := [v % 256, v / 256 % 256]

/-- Little-endian 32-bit field (`DataView.setUint32(…, true)` truncates
modulo 2^32). -/
def le32 (v : Nat) : Bytes :=
  [v % 256, v / 256 % 256, v / 65536 % 256, v / 16777216 % 256]

/-- UTF-8 bytes of one character (`TextEncoder`). -/
def utf8Char (c : Char) : Bytes :=
  let n := c.toNat
  if n < 128 then [n]
  else if n < 2048 then [192 + n / 64, 128 + n % 64]
  else if n < 65536 then [224 + n / 4096, 128 + n / 64 % 64, 128 + n % 64]
  else [240 + n / 262144, 128 + n / 4096 % 64, 128 + n / 64 % 64, 128 + n % 64]

/-- UTF-8 encoding of a string (`TextEncoder.encode`). -/
def utf8Encode (s : String) : Bytes := s.data.flatMap utf8Char

/-- One iteration of the CRC-32 table construction: shift right once and
conditionally xor the reversed polynomial 0xEDB88320. -/
def crcStep (c : Nat) : Nat :=
  if c % 2 = 1 then Nat.xor 0xedb88320 (c / 2) else c / 2

/-- Entry `n` of the CRC-32 table (`CRC_TABLE`): eight shift/xor steps. -/
def crcTable (n : Nat) : Nat := crcStep^[8] n

/-- CRC accumulation loop of `crc32`:
`crc = (crc >>> 8) ^ CRC_TABLE[(crc ^ byte) & 0xff]`. -/
def crc32Aux : Nat → Bytes → Nat
  | crc, [] => crc
  | crc, b :: rest => crc32Aux (Nat.xor (crc / 256) (crcTable (Nat.xor crc b % 256))) rest

/-- Model of `crc32` (engine worker): start from the all-ones pattern
(the int32 `-1` viewed unsigned), accumulate, then invert. -/
def crc32 (buf : Bytes) : Nat := Nat.xor (crc32Aux 0xffffffff buf) 0xffffffff

/-- An archive entry: display name plus payload. -/
structure ZipEntry where
  name : String
  data : Bytes
deriving DecidableEq, Repr

/-- Local file record of one entry: fixed 30-byte header (signature,
version 20, flags 0, method 0 = store, timestamp, CRC, both sizes equal
to the raw length, name length, extra length 0) followed by the name. -/
def zipLocal (nameB : Bytes) (time date crc size : Nat) : Bytes :=
  le32 0x04034b50 ++ le16 20 ++ le16 0 ++ le16 0 ++ le16 time ++ le16 date ++
  le32 crc ++ le32 size ++ le32 size ++ le16 nameB.length ++ le16 0 ++ nameB

/-- Central-directory record of one entry, mirroring the local header
plus the entry's byte offset. -/
def zipCentral (nameB : Bytes) (time date crc size offset : Nat) : Bytes :=
  le32 0x02014b50 ++ le16 20 ++ le16 20 ++ le16 0 ++ le16 0 ++ le16 time ++ le16 date ++
  le32 crc ++ le32 size ++ le32 size ++ le16 nameB.length ++ le16 0 ++ le16 0 ++
  le16 0 ++ le16 0 ++ le32 0 ++ le32 offset ++ nameB

/-- Per-entry loop of `buildZip`: accumulate the local records (each
followed by its payload), the central records, and the running offset;
returns the concatenated local section, the central records, and the
final offset (= length of the local section). -/
def buildZipAux (time date : Nat) : List ZipEntry → Nat → Bytes × List Bytes × Nat
  | [], offset => ([], [], offset)
  | e :: rest, offset =>
    let nameB := utf8Encode e.name
    let crc := crc32 e.data
    let local_ := zipLocal nameB time date crc e.data.length
    let central := zipCentral nameB time date crc e.data.length offset
    let next := buildZipAux time date rest (offset + local_.length + e.data.length)
    (local_ ++ e.data ++ next.1, central :: next.2.1, next.2.2)

/-- Model of `buildZip` (engine worker): local records, central
directory, and a single end-of-directory record carrying the entry count
(in two fields), the directory size and the directory offset.  The
`time`/`date` parameters stand for the DOS-packed capture-time stamp
(`dosDateTime()`), which the encoder derives from the clock. -/
def buildZip (entries : List ZipEntry) (time date : Nat) : Bytes :=
  let built := buildZipAux time date entries 0
  let centralDir := built.2.1.flatten
  built.1 ++ centralDir ++
    (le32 0x06054b50 ++ le16 0 ++ le16 0 ++ le16 entries.length ++ le16 entries.length ++
     le32 centralDir.length ++ le32 built.2.2 ++ le16 0)

/-- One label piece: `p3` for a single page, `p3-7` for a run. -/
def rangePart (start prev : ℚ) : String :=
  if start = prev then "p" ++ jsNumToString start
  else "p" ++ jsNumToString start ++ "-" ++ jsNumToString prev

/-- Scan loop of `formatRangeLabel`: extend the current run while the
next number is exactly `prev + 1`, otherwise emit the finished piece. -/
def rangeParts (start prev : ℚ) : List ℚ → List String
  | [] => [rangePart start prev]
  | n :: rest =>
    if n = prev + 1 then rangeParts start n rest
    else rangePart start prev :: rangeParts n n rest

/-- Model of `formatRangeLabel` (engine worker): dedup+sort the numbers,
collapse consecutive runs, and join the pieces with `_`. -/
def formatRangeLabel (nums : List ℚ) : String :=
  match sortDedup nums with
  | [] => ""
  | s :: rest => joinWith "_" (rangeParts s s rest)

/-- JS `name.replace(/\.pdf$/i, "")`: strip one case-insensitive `.pdf`
suffix. -/
def stripPdfExt (s : String) : String :=
  let cs := s.data
  let n := cs.length
  if 4 ≤ n ∧ (cs.drop (n - 4)).map Char.toLower = ".pdf".data then
    String.mk (cs.take (n - 4))
  else s

/-- Base output name: stripped input name, or `document` when stripping
leaves the empty string (`… || "document"`). -/
def baseOf (s : String) : String :=
  let b := stripPdfExt s
  if b = "" then "document" else b

/-- The qpdf virtual file system: an association list from path to bytes. -/
abbrev FS := List (String × Bytes)

/-- Does the file system contain a file at this path? -/
def fsHas (fs : FS) (p : String) : Bool := fs.any (fun e => e.1 = p)

/-- `FS.writeFile`: create or overwrite. -/
def fsWrite (fs : FS) (p : String) (b : Bytes) : FS :=
  (p, b) :: fs.filter (fun e => e.1 ≠ p)

/-- `FS.readFile`, defensively modelled as optional (the worker checks
for a missing result itself). -/
def fsRead (fs : FS) (p : String) : Option Bytes :=
  (fs.find? (fun e => e.1 = p)).map (fun e => e.2)

/-- `FS.unlink` of an existing file. -/
def fsUnlink (fs : FS) (p : String) : FS := fs.filter (fun e => e.1 ≠ p)

/-- The cleanup block `try { unlink(in); unlink(out) } catch { /* ignore */ }`:
unlinking a missing file throws, aborting the rest of the block, and the
exception is swallowed. -/
def fsCleanup (fs : FS) (inP outP : String) : FS :=
  if fsHas fs inP then
    let fs1 := fsUnlink fs inP
    if fsHas fs1 outP then fsUnlink fs1 outP else fs1
  else fs

/-- Input working path for qpdf run `id`. -/
def inPath (id : Nat) : String := "/in/in_" ++ natStr id ++ ".pdf"

/-- Output working path for qpdf run `id`. -/
def outPath (id : Nat) : String := "/out/out_" ++ natStr id ++ ".pdf"

/-- Input document as carried by a worker request: name, raw bytes, and
an optional password. -/
structure FileIn where
  name : String
  bytes : Bytes
  password : Option String
deriving DecidableEq, Repr

/-- Error message produced by `decryptPdf`'s catch block: a password-
related engine diagnostic (tested with `/password/i`) becomes the
distinct protected-content message, anything else the generic open
failure carrying the diagnostic. -/
def decryptErrMsg (lbl msg : String) : String :=
  if containsCI msg "password" then
    "\"" ++ lbl ++ "\" is password-protected. Provide the correct password and try again."
  else "Failed to open " ++ lbl ++ " (" ++ msg ++ ")"

/-- The protected-content error message for a label. -/
def protectedMsg (lbl : String) : String :=
  "\"" ++ lbl ++ "\" is password-protected. Provide the correct password and try again."

/-- The generic open-failure error message for a label and diagnostic. -/
def openFailMsg (lbl msg : String) : String :=
  "Failed to open " ++ lbl ++ " (" ++ msg ++ ")"

/-- The argument list `decryptPdf` passes to qpdf: a falsy password
(absent or empty) yields the bare `--password=` flag. -/
def decryptArgs (password : Option String) (inP outP : String) : List String :=
  ["--decrypt", "--password=" ++ password.getD "", inP, outP]

/-- Outcome of `decryptRun`. -/
structure DecryptOut where
  runId : Nat
  fs : FS
  outcome : Except String Bytes
deriving Repr

/-- Model of `decryptPdf` (engine worker).  `callMain` is the qpdf
engine oracle, given the argument list; it may throw (`Except.error`),
or succeed having written the output file (`some`) or not (`none`).
The adapter increments the shared run counter, writes the input into the
fresh working path, invokes the engine, reads the output back, maps any
thrown diagnostic through `decryptErrMsg`, and runs the cleanup block
(`finally`) on every path. -/
def decryptRun (runId : Nat) (fs : FS)
    (callMain : List String → Except String (Option Bytes))
    (bytes : Bytes) (password : Option String) (label : Option String) : DecryptOut :=
  let id := runId + 1
  let inP := inPath id
  let outP := outPath id
  let lbl := label.getD "PDF"
  let fs1 := fsWrite fs inP bytes
  match callMain (decryptArgs password inP outP) with
  | Except.error msg =>
    { runId := id, fs := fsCleanup fs1 inP outP, outcome := Except.error (decryptErrMsg lbl msg) }
  | Except.ok w =>
    let fs2 := match w with
      | some ob => fsWrite fs1 outP ob
      | none => fs1
    match fsRead fs2 outP with
    | some ob =>
      { runId := id, fs := fsCleanup fs2 inP outP, outcome := Except.ok ob }
    | none =>
      { runId := id, fs := fsCleanup fs2 inP outP,
        outcome := Except.error (decryptErrMsg lbl "Decryption produced no output.") }

/-- The three compression tiers of the shrink operation. -/
inductive Level
  | small
  | balanced
  | best
deriving DecidableEq, Repr

/-- The per-tier argument selection of `compress`: every tier maps to
`--recompress-flate`. -/
def levelArgs : Level → List String
  | Level.small => ["--recompress-flate"]
  | Level.best => ["--recompress-flate"]
  | Level.balanced => ["--recompress-flate"]

/-- Full qpdf argument list built by `compress`. -/
def qpdfArgs (level : Level) (inP outP : String) : List String :=
  ["--object-streams=generate", "--stream-data=compress"] ++ levelArgs level ++ [inP, outP]

/-- Events of the worker protocol, tagged with the job id they carry. -/
inductive Event
  | progress (jobId : String) (percent : Nat) (note : String)
  | result (jobId : String) (outputName : String) (payload : Bytes) (mime : String)
  | error (jobId : String) (message : String)
deriving DecidableEq, Repr

/-- Percent of a progress event (0 otherwise). -/
def pct : Event → Nat
  | Event.progress _ p _ => p
  | _ => 0

/-- Outcome of `compressRun`: emitted events, normal return or thrown
error, and the final shared run counter and file system. -/
structure CompressOut where
  events : List Event
  outcome : Except String Unit
  runId : Nat
  fs : FS
deriving Repr

/-- Model of `compress` (engine worker).  Decrypts through `decryptRun`
(sharing the run counter and file system), takes a fresh working path
pair, emits progress, writes the unlocked bytes, invokes qpdf with the
tier-derived arguments, reads the output back, and only then — after the
missing-output check that may throw — unlinks the working files. -/
def compressRun (jobId : String) (runId : Nat) (fs : FS) (file : FileIn) (level : Level)
    (callMain : List String → Except String (Option Bytes)) : CompressOut :=
  let p5 := Event.progress jobId 5 "Initializing qpdf (WASM)…"
  let d := decryptRun runId fs callMain file.bytes file.password (some file.name)
  match d.outcome with
  | Except.error m => { events := [p5], outcome := Except.error m, runId := d.runId, fs := d.fs }
  | Except.ok unlocked =>
    let id2 := d.runId + 1
    let inP := inPath id2
    let outP := outPath id2
    let p30 := Event.progress jobId 30 "Rewriting PDF…"
    let fs2 := fsWrite d.fs inP unlocked
    match callMain (qpdfArgs level inP outP) with
    | Except.error m =>
      { events := [p5, p30], outcome := Except.error m, runId := id2, fs := fs2 }
    | Except.ok w =>
      let fs3 := match w with
        | some ob => fsWrite fs2 outP ob
        | none => fs2
      match fsRead fs3 outP with
      | none =>
        { events := [p5, p30],
          outcome := Except.error "qpdf-wasm returned no output (out.pdf missing).",
          runId := id2, fs := fs3 }
      | some ob =>
        let fs4 := fsCleanup fs3 inP outP
        { events := [p5, p30, Event.progress jobId 100 "Done",
            Event.result jobId ("compressed_" ++ stripPdfExt file.name ++ ".pdf") ob
              "application/pdf"],
          outcome := Except.ok (), runId := id2, fs := fs4 }

/-- Generic progress-emitting loop shared by the merge import loop, the
split per-range loop and the rasterize per-page loop: at position `i` it
emits one progress event with percent `g i`, runs the body (the awaited
collaborator calls for that iteration, which may throw), and collects
the produced values. -/
def emitLoop {α β : Type} (jobId : String) (g : Nat → Nat) (note : Nat → α → String)
    (body : Nat → α → Except String β) : Nat → List α → List Event × Except String (List β)
  | _, [] => ([], Except.ok [])
  | i, a :: rest =>
    let ev := Event.progress jobId (g i) (note i a)
    match body i a with
    | Except.error m => ([ev], Except.error m)
    | Except.ok b =>
      match emitLoop jobId g note body (i + 1) rest with
      | (evs, Except.error m) => (ev :: evs, Except.error m)
      | (evs, Except.ok bs) => (ev :: evs, Except.ok (b :: bs))

/-- Model of `merge` (engine worker).  Per imported file, the awaited
collaborator calls are the decrypt (`dec`), the pdf-lib load (`load`)
and the page copy (`copy`); `save` is the final document save.  Progress
points follow the source: 5, then `10 + floor(i/n*60)` per file, 80
before saving, 100 and the result on success. -/
def mergeRun (jobId : String) (files : List FileIn)
    (dec : Nat → FileIn → Except String Bytes)
    (load : Nat → Except String Unit)
    (copy : Nat → Except String Unit)
    (save : Except String Bytes) : List Event × Except String Unit :=
  let p5 := Event.progress jobId 5 "Loading PDFs…"
  match emitLoop jobId (fun i => 10 + i * 60 / files.length)
      (fun _ f => "Importing " ++ f.name ++ "…")
      (fun i f => (dec i f).bind fun _ => (load i).bind fun _ => copy i) 0 files with
  | (evs, Except.error m) => (p5 :: evs, Except.error m)
  | (evs, Except.ok _) =>
    match save with
    | Except.error m =>
      (p5 :: evs ++ [Event.progress jobId 80 "Saving…"], Except.error m)
    | Except.ok b =>
      (p5 :: evs ++ [Event.progress jobId 80 "Saving…", Event.progress jobId 100 "Done",
        Event.result jobId "merged.pdf" b "application/pdf"], Except.ok ())

/-- Normalization of requested page numbers against the page count
(`split`'s `normalize`): 1-based to 0-based, drop out-of-range, dedup,
sort ascending. -/
def normalize (pageCount : Nat) (list : List ℚ) : List ℚ :=
  sortDedup ((list.map (fun p => p - 1)).filter
    (fun p => decide (0 ≤ p ∧ p < (pageCount : ℚ))))

/-- The groups the ZIP branch of `split` iterates over: the supplied
ranges, or the flat selection as a single group when none were supplied,
each normalized, keeping only non-empty results. -/
def zipRanges (pageCount : Nat) (ranges : List (List ℚ)) (pages : List ℚ) : List (List ℚ) :=
  ((if ranges = [] then [pages] else ranges).map (normalize pageCount)).filter
    (fun r => ¬ r.isEmpty)

/-- Name of one ZIP-branch output: base name, range label over the
1-based pages (or `rangeN` if the label is empty), and extension. -/
def zipEntryName (base : String) (i : Nat) (range : List ℚ) : String :=
  let label := formatRangeLabel (range.map (fun p => p + 1))
  base ++ "_" ++ (if label = "" then "range" ++ natStr (i + 1) else label) ++ ".pdf"

/-- Output mode of the split operation. -/
inductive OutputMode
  | single
  | zip
deriving DecidableEq, Repr

/-- Model of `split` (engine worker).  `dec` abstracts `decryptPdf`'s
returned value, `loadO` the pdf-lib load, `pageCount` the loaded
document's page count; `saveRange` abstracts the per-range
create/copy/save in the ZIP branch and `copyMain`/`saveMain` the page
copy and save in the single branch.  `time`/`date` stand for the ZIP
encoder's capture-time stamp. -/
def splitRun (jobId : String) (file : FileIn) (pages : List ℚ) (ranges : List (List ℚ))
    (output : OutputMode) (dec : Except String Bytes) (loadO : Except String Unit)
    (pageCount : Nat) (saveRange : List ℚ → Except String Bytes)
    (copyMain : Except String Unit) (saveMain : Except String Bytes)
    (time date : Nat) : List Event × Except String Unit :=
  let p5 := Event.progress jobId 5 "Loading PDF…"
  match dec with
  | Except.error m => ([p5], Except.error m)
  | Except.ok _ =>
  match loadO with
  | Except.error m => ([p5], Except.error m)
  | Except.ok _ =>
  let indices := normalize pageCount pages
  if indices.isEmpty then ([p5], Except.error "No valid pages selected.")
  else
    match output with
    | OutputMode.zip =>
      let base := baseOf file.name
      let nr := zipRanges pageCount ranges pages
      match emitLoop jobId (fun i => 10 + i * 60 / nr.length)
          (fun _ r => "Extrayendo páginas " ++
            joinWith "," ((r.map (fun p => p + 1)).map jsNumToString) ++ "…")
          (fun i r => (saveRange r).map fun b => ZipEntry.mk (zipEntryName base i r) b)
          0 nr with
      | (evs, Except.error m) => (p5 :: evs, Except.error m)
      | (evs, Except.ok entries) =>
        (p5 :: evs ++ [Event.progress jobId 85 "Creando ZIP…",
          Event.progress jobId 100 "Done",
          Event.result jobId (base ++ "_pages.zip") (buildZip entries time date)
            "application/zip"], Except.ok ())
    | OutputMode.single =>
      let p40 := Event.progress jobId 40 "Extracting pages…"
      match copyMain with
      | Except.error m => ([p5, p40], Except.error m)
      | Except.ok _ =>
        match saveMain with
        | Except.error m => ([p5, p40, Event.progress jobId 80 "Saving…"], Except.error m)
        | Except.ok b =>
          ([p5, p40, Event.progress jobId 80 "Saving…", Event.progress jobId 100 "Done",
            Event.result jobId "split_pages.pdf" b "application/pdf"], Except.ok ())

/-- Raster output formats of the rasterize operation. -/
inductive ImgFormat
  | png
  | jpg
deriving DecidableEq, Repr

/-- Extension string of a raster format. -/
def fmtExt : ImgFormat → String
  | ImgFormat.png => "png"
  | ImgFormat.jpg => "jpg"

/-- JS `String(n).padStart(3, "0")`. -/
def pad3 (s : String) : String :=
  if s.length < 3 then String.mk (List.replicate (3 - s.length) '0') ++ s else s

/-- Model of `pdf2img` (engine worker).  `openO` abstracts the MuPDF
document open, `total` the reported page count, and `render i scale` the
per-page load/render/encode pipeline. -/
def pdf2imgRun (jobId : String) (file : FileIn) (format : ImgFormat) (dpi : ℚ)
    (dec : Except String Bytes) (openO : Except String Unit) (total : Nat)
    (render : Nat → ℚ → Except String Bytes) (time date : Nat) :
    List Event × Except String Unit :=
  let p5 := Event.progress jobId 5 "Initializing MuPDF (WASM)…"
  match dec with
  | Except.error m => ([p5], Except.error m)
  | Except.ok _ =>
  match openO with
  | Except.error m => ([p5], Except.error m)
  | Except.ok _ =>
  if total = 0 then ([p5], Except.error "PDF has no pages.")
  else
    let scale := dpi / 72
    match emitLoop jobId (fun i => 10 + i * 70 / total)
        (fun i _ => "Rendering page " ++ natStr (i + 1) ++ "…")
        (fun i _ => (render i scale).map fun d =>
          ZipEntry.mk ("page_" ++ pad3 (natStr (i + 1)) ++ "." ++ fmtExt format) d)
        0 (List.range total) with
    | (evs, Except.error m) => (p5 :: evs, Except.error m)
    | (evs, Except.ok entries) =>
      let base := baseOf file.name
      (p5 :: evs ++ [Event.progress jobId 85 "Packaging ZIP…",
        Event.progress jobId 100 "Done",
        Event.result jobId (base ++ "_images_" ++ fmtExt format ++ ".zip")
          (buildZip entries time date) "application/zip"], Except.ok ())

/-- Worker requests (the tagged union of `WorkerRequest`), plus a
constructor for unrecognized request shapes, from which at most a job id
can be recovered. -/
inductive WorkerRequest
  | merge (jobId : String) (files : List FileIn)
  | split (jobId : String) (file : FileIn) (pages : List ℚ) (ranges : List (List ℚ))
      (output : OutputMode)
  | compress (jobId : String) (file : FileIn) (level : Level)
  | pdf2img (jobId : String) (file : FileIn) (format : ImgFormat) (dpi : ℚ)
  | other (jobId : Option String)

/-- The job id the handler attributes events to
(`(msg as any).jobId ?? "unknown"`). -/
def reqJobId : WorkerRequest → String
  | WorkerRequest.merge j _ => j
  | WorkerRequest.split j _ _ _ _ => j
  | WorkerRequest.compress j _ _ => j
  | WorkerRequest.pdf2img j _ _ _ => j
  | WorkerRequest.other j => j.getD "unknown"

/-- All collaborator oracles, bundled: each field abstracts one awaited
external call, returning its value or its thrown message. -/
structure Oracles where
  decM : Nat → FileIn → Except String Bytes
  loadM : Nat → Except String Unit
  copyM : Nat → Except String Unit
  saveM : Except String Bytes
  decS : Except String Bytes
  loadS : Except String Unit
  pageCount : Nat
  saveRange : List ℚ → Except String Bytes
  copyMain : Except String Unit
  saveMain : Except String Bytes
  callMain : List String → Except String (Option Bytes)
  openR : Except String Unit
  totalPages : Nat
  render : Nat → ℚ → Except String Bytes
  time : Nat
  date : Nat

/-- The handler's catch clause: a normal return leaves the operation's
events; a thrown message is appended as one terminal error event. -/
def finish (jobId : String) (r : List Event × Except String Unit) : List Event :=
  r.1 ++ (match r.2 with
    | Except.ok _ => []
    | Except.error m => [Event.error jobId m])

/-- Model of the worker's `self.onmessage` dispatch: select the
operation by tag, run it (threading the shared run counter and file
system through the compress path), and emit a terminal error for any
thrown message or for an unknown request shape. -/
def handleMessage (runId : Nat) (fs : FS) (req : WorkerRequest) (o : Oracles) :
    List Event × Nat × FS :=
  match req with
  | WorkerRequest.merge jobId files =>
    (finish jobId (mergeRun jobId files o.decM o.loadM o.copyM o.saveM), runId, fs)
  | WorkerRequest.split jobId file pages ranges output =>
    (finish jobId (splitRun jobId file pages ranges output o.decS o.loadS o.pageCount
      o.saveRange o.copyMain o.saveMain o.time o.date), runId, fs)
  | WorkerRequest.compress jobId file level =>
    let r := compressRun jobId runId fs file level o.callMain
    (finish jobId (r.events, r.outcome), r.runId, r.fs)
  | WorkerRequest.pdf2img jobId file format dpi =>
    (finish jobId (pdf2imgRun jobId file format dpi o.decS o.openR o.totalPages
      o.render o.time o.date), runId, fs)
  | WorkerRequest.other j =>
    ([Event.error (j.getD "unknown") "Unknown worker request"], runId, fs)

/-- The four tools of the requester-side UI. -/
inductive ToolId
  | merge
  | split
  | compress
  | pdf2img
deriving DecidableEq, Repr

/-- A file selected in the UI (name and bytes; the UI never supplies
passwords). -/
structure UIFile where
  name : String
  bytes : Bytes
deriving DecidableEq, Repr

/-- Result of a submission attempt: rejected with an alert message (no
worker request is posted), or submitted with the posted request. -/
inductive SubmitResult
  | rejected (alertMsg : String)
  | submitted (req : WorkerRequest)

/-- The request a submission posted to the worker, if any. -/
def toWorker : SubmitResult → Option WorkerRequest
  | SubmitResult.rejected _ => none
  | SubmitResult.submitted r => some r

/-- A UI file as it appears in a request payload. -/
def toFileIn (f : UIFile) : FileIn := { name := f.name, bytes := f.bytes, password := none }

/-- Model of `runJob` (main UI module): validation guards first (no
files; merge with fewer than two files), then the per-tool request
construction.  The split path parses the page text with
`parsePageGroups` and falls back to the flat list as a single range. -/
def runJob (tool : ToolId) (files : List UIFile) (jobId : String)
    (compressLevel : Level) (splitPages : String) (splitOutput : OutputMode)
    (imgFormat : ImgFormat) (imgDpi : ℚ) : SubmitResult :=
  match files with
  | [] => SubmitResult.rejected "Add PDFs first."
  | f :: rest =>
    if tool = ToolId.merge ∧ rest.length = 0 then
      SubmitResult.rejected "Merge needs at least 2 PDFs."
    else
      match tool with
      | ToolId.merge =>
        SubmitResult.submitted (WorkerRequest.merge jobId ((f :: rest).map toFileIn))
      | ToolId.split =>
        let pg := parsePageGroups splitPages
        SubmitResult.submitted (WorkerRequest.split jobId (toFileIn f) pg.flat
          (if pg.groups = [] then [pg.flat] else pg.groups) splitOutput)
      | ToolId.compress =>
        SubmitResult.submitted (WorkerRequest.compress jobId (toFileIn f) compressLevel)
      | ToolId.pdf2img =>
        SubmitResult.submitted (WorkerRequest.pdf2img jobId (toFileIn f) imgFormat imgDpi)

/-- A segment of progress events for one job, with non-decreasing
percents all lying in `[lo, hi]`. -/
def ProgBnd (jobId : String) (lo hi : Nat) (evs : List Event) : Prop :=
  (∀ e ∈ evs, ∃ p note, e = Event.progress jobId p note) ∧
  List.Chain' (fun a b => pct a ≤ pct b) evs ∧
  ∀ e ∈ evs, lo ≤ pct e ∧ pct e ≤ hi

/-- The protocol invariant on a full per-job trace: zero or more
progress events with non-decreasing percents, followed by exactly one
terminal event (a result or an error), all carrying the job's id. -/
def GoodTrace (jobId : String) (tr : List Event) : Prop :=
  ∃ ps t, tr = ps ++ [t] ∧
    (∀ e ∈ ps, ∃ p note, e = Event.progress jobId p note) ∧
    List.Chain' (fun a b => pct a ≤ pct b) ps ∧
    ((∃ name payload mime, t = Event.result jobId name payload mime) ∨
     (∃ m, t = Event.error jobId m))

/-- Shape of an operation's own output before the handler's catch
clause: on a thrown message the emitted events are a bounded progress
segment; on normal return they are such a segment followed by exactly
one result event. -/
def OpShape (jobId : String) (r : List Event × Except String Unit) : Prop :=
  match r.2 with
  | Except.error _ => ∃ lo hi, ProgBnd jobId lo hi r.1
  | Except.ok _ => ∃ ps name payload mime lo hi,
      r.1 = ps ++ [Event.result jobId name payload mime] ∧ ProgBnd jobId lo hi ps

theorem sortDedup_sorted_lt (l : List ℚ) : (sortDedup l).Sorted (fun a b => a < b) := by
  have hs : (sortDedup l).Sorted (fun a b => a ≤ b) :=
    List.sorted_insertionSort (fun a b => a ≤ b) l.dedup
  have hn : (sortDedup l).Nodup :=
    ((List.perm_insertionSort (fun a b => a ≤ b) l.dedup).nodup_iff).mpr l.nodup_dedup
  exact (List.Pairwise.and hs hn).imp (fun h => lt_of_le_of_ne h.1 h.2)

theorem mem_sortDedup {q : ℚ} {l : List ℚ} : q ∈ sortDedup l ↔ q ∈ l := by
  rw [sortDedup, (List.perm_insertionSort (fun a b => a ≤ b) l.dedup).mem_iff,
    List.mem_dedup]

theorem progBnd_nil (j : String) (lo hi : Nat) : ProgBnd j lo hi [] := by
  refine ⟨?_, ?_, ?_⟩ <;> simp

theorem progBnd_singleton (j : String) (p : Nat) (note : String) {lo hi : Nat}
    (h1 : lo ≤ p) (h2 : p ≤ hi) : ProgBnd j lo hi [Event.progress j p note] := by
  refine ⟨?_, ?_, ?_⟩ <;> simp [pct, h1, h2]

theorem progBnd_mono {j : String} {lo hi lo' hi' : Nat} {evs : List Event}
    (h : ProgBnd j lo hi evs) (hl : lo' ≤ lo) (hh : hi ≤ hi') : ProgBnd j lo' hi' evs := by
  obtain ⟨h1, h2, h3⟩ := h
  exact ⟨h1, h2, fun e he => ⟨le_trans hl (h3 e he).1, le_trans (h3 e he).2 hh⟩⟩

theorem progBnd_append {j : String} {lo m hi : Nat} {a b : List Event}
    (h1 : ProgBnd j lo m a) (h2 : ProgBnd j m hi b) (hlm : lo ≤ m) (hmh : m ≤ hi) :
    ProgBnd j lo hi (a ++ b) := by
  obtain ⟨ha1, ha2, ha3⟩ := h1
  obtain ⟨hb1, hb2, hb3⟩ := h2
  refine ⟨?_, ?_, ?_⟩
  · intro e he
    rcases List.mem_append.mp he with h | h
    · exact ha1 e h
    · exact hb1 e h
  · refine List.chain'_append.mpr ⟨ha2, hb2, ?_⟩
    intro x hx y hy
    have hxa : x ∈ a := by
      obtain ⟨hne, rfl⟩ := List.mem_getLast?_eq_getLast hx
      exact List.getLast_mem hne
    have hyb : y ∈ b := List.mem_of_mem_head? hy
    exact le_trans (ha3 x hxa).2 (hb3 y hyb).1
  · intro e he
    rcases List.mem_append.mp he with h | h
    · exact ⟨(ha3 e h).1, le_trans (ha3 e h).2 hmh⟩
    · exact ⟨le_trans hlm (hb3 e h).1, (hb3 e h).2⟩

theorem progBnd_cons {j : String} {lo m hi : Nat} {p : Nat} {note : String} {evs : List Event}
    (h : ProgBnd j m hi evs) (hlp : lo ≤ p) (hpm : p ≤ m) (hmh : m ≤ hi) :
    ProgBnd j lo hi (Event.progress j p note :: evs) := by
  have := progBnd_append (progBnd_singleton j p note hlp hpm) h (le_trans hlp hpm) hmh
  simpa using this

theorem emitLoop_fst_cons {α β : Type} (j : String) (g : Nat → Nat) (note : Nat → α → String)
    (body : Nat → α → Except String β) (i : Nat) (a : α) (rest : List α) :
    (emitLoop j g note body i (a :: rest)).1 =
      (match body i a with
      | Except.error _ => [Event.progress j (g i) (note i a)]
      | Except.ok _ =>
        Event.progress j (g i) (note i a) :: (emitLoop j g note body (i + 1) rest).1) := by
  simp only [emitLoop]
  cases body i a with
  | error m => rfl
  | ok b =>
    rcases h : emitLoop j g note body (i + 1) rest with ⟨evs, r⟩
    cases r <;> simp

theorem emitLoop_shape {α β : Type} (j : String) (g : Nat → Nat) (note : Nat → α → String)
    (body : Nat → α → Except String β) (n hi : Nat)
    (hg : ∀ i i', i ≤ i' → g i ≤ g i') (hub : ∀ i, i < n → g i ≤ hi) :
    ∀ (rest : List α) (i : Nat), i + rest.length = n →
      ProgBnd j (g i) hi (emitLoop j g note body i rest).1 := by
  intro rest
  induction rest with
  | nil => intro i _; exact progBnd_nil j _ hi
  | cons a as ih =>
    intro i hlen
    have hlen' : i + as.length + 1 = n := by
      simpa [List.length_cons, Nat.add_assoc] using hlen
    have hin : i < n := by omega
    have hgi : g i ≤ hi := hub i hin
    rw [emitLoop_fst_cons]
    cases hb : body i a with
    | error m => exact progBnd_singleton j (g i) (note i a) le_rfl hgi
    | ok b =>
      cases as with
      | nil => exact progBnd_singleton j (g i) (note i a) le_rfl hgi
      | cons a2 as2 =>
        have hnext : i + 1 < n := by
          simp only [List.length_cons] at hlen'
          omega
        have h1 : ProgBnd j (g (i + 1)) hi (emitLoop j g note body (i + 1) (a2 :: as2)).1 :=
          ih (i + 1) (by simp only [List.length_cons] at hlen' ⊢; omega)
        exact progBnd_cons h1 le_rfl (hg i (i + 1) (Nat.le_succ i)) (hub (i + 1) hnext)

theorem progDiv_mono (c n i i' : Nat) (h : i ≤ i') :
    10 + i * c / n ≤ 10 + i' * c / n :=
  Nat.add_le_add_left (Nat.div_le_div_right (Nat.mul_le_mul_right c h)) 10

theorem progDiv_ub (c n i : Nat) (h : i < n) : 10 + i * c / n ≤ 10 + c := by
  have h1 : i * c / n ≤ n * c / n :=
    Nat.div_le_div_right (Nat.mul_le_mul_right c (le_of_lt h))
  have h2 : n * c / n = c := Nat.mul_div_cancel_left c (lt_of_le_of_lt (Nat.zero_le i) h)
  omega

theorem mergeRun_shape (j : String) (files : List FileIn)
    (dec : Nat → FileIn → Except String Bytes) (load : Nat → Except String Unit)
    (copy : Nat → Except String Unit) (save : Except String Bytes) :
    OpShape j (mergeRun j files dec load copy save) := by
  have hloop : ProgBnd j 10 70
      (emitLoop j (fun i => 10 + i * 60 / files.length)
        (fun _ f => "Importing " ++ f.name ++ "…")
        (fun i f => (dec i f).bind fun _ => (load i).bind fun _ => copy i) 0 files).1 := by
    have h := emitLoop_shape j (fun i => 10 + i * 60 / files.length)
      (fun _ f => "Importing " ++ f.name ++ "…")
      (fun i f => (dec i f).bind fun _ => (load i).bind fun _ => copy i)
      files.length 70
      (fun i i' hii => progDiv_mono 60 files.length i i' hii)
      (fun i hin => progDiv_ub 60 files.length i hin)
      files 0 (by simp)
    simpa using h
  dsimp only [mergeRun]
  rcases hL : emitLoop j (fun i => 10 + i * 60 / files.length)
      (fun _ f => "Importing " ++ f.name ++ "…")
      (fun i f => (dec i f).bind fun _ => (load i).bind fun _ => copy i) 0 files
    with ⟨evs, r⟩
  rw [hL] at hloop
  simp only at hloop
  rw [hL]
  cases r with
  | error m =>
    exact ⟨5, 70, progBnd_cons hloop le_rfl (by omega) (by omega)⟩
  | ok u =>
    cases save with
    | error m =>
      refine ⟨5, 80, ?_⟩
      have h80 : ProgBnd j 70 80 [Event.progress j 80 "Saving…"] :=
        progBnd_singleton j 80 _ (by omega) (by omega)
      have h3 : ProgBnd j 10 80 (evs ++ [Event.progress j 80 "Saving…"]) :=
        progBnd_append hloop h80 (by omega) (by omega)
      exact progBnd_cons h3 le_rfl (by omega) (by omega)
    | ok b =>
      refine ⟨Event.progress j 5 "Loading PDFs…" ::
        (evs ++ [Event.progress j 80 "Saving…", Event.progress j 100 "Done"]),
        "merged.pdf", b, "application/pdf", 5, 100, by simp, ?_⟩
      have h80 : ProgBnd j 70 80 [Event.progress j 80 "Saving…"] :=
        progBnd_singleton j 80 _ (by omega) (by omega)
      have h100 : ProgBnd j 80 100 [Event.progress j 100 "Done"] :=
        progBnd_singleton j 100 _ (by omega) (by omega)
      have h2 : ProgBnd j 70 100
          [Event.progress j 80 "Saving…", Event.progress j 100 "Done"] := by
        simpa using progBnd_append h80 h100 (by omega) (by omega)
      have h3 : ProgBnd j 10 100
          (evs ++ [Event.progress j 80 "Saving…", Event.progress j 100 "Done"]) :=
        progBnd_append hloop h2 (by omega) (by omega)
      exact progBnd_cons h3 le_rfl (by omega) (by omega)

theorem splitRun_shape (j : String) (file : FileIn) (pages : List ℚ) (ranges : List (List ℚ))
    (output : OutputMode) (dec : Except String Bytes) (loadO : Except String Unit)
    (pageCount : Nat) (saveRange : List ℚ → Except String Bytes)
    (copyMain : Except String Unit) (saveMain : Except String Bytes) (time date : Nat) :
    OpShape j (splitRun j file pages ranges output dec loadO pageCount saveRange
      copyMain saveMain time date) := by
  dsimp only [splitRun]
  cases dec with
  | error m => exact ⟨5, 5, progBnd_singleton j 5 _ le_rfl le_rfl⟩
  | ok u =>
  cases loadO with
  | error m => exact ⟨5, 5, progBnd_singleton j 5 _ le_rfl le_rfl⟩
  | ok u2 =>
  cases hind : (normalize pageCount pages).isEmpty with
  | true =>
    rw [if_pos rfl]
    exact ⟨5, 5, progBnd_singleton j 5 _ le_rfl le_rfl⟩
  | false =>
    rw [if_neg (by simp)]
    cases output with
    | zip =>
      have hloop : ProgBnd j 10 70
          (emitLoop j (fun i => 10 + i * 60 / (zipRanges pageCount ranges pages).length)
            (fun _ r => "Extrayendo páginas " ++
              joinWith "," ((r.map (fun p => p + 1)).map jsNumToString) ++ "…")
            (fun i r => (saveRange r).map fun b => ZipEntry.mk (zipEntryName (baseOf file.name) i r) b)
            0 (zipRanges pageCount ranges pages)).1 := by
        have h := emitLoop_shape j
          (fun i => 10 + i * 60 / (zipRanges pageCount ranges pages).length)
          (fun _ r => "Extrayendo páginas " ++
            joinWith "," ((r.map (fun p => p + 1)).map jsNumToString) ++ "…")
          (fun i r => (saveRange r).map fun b => ZipEntry.mk (zipEntryName (baseOf file.name) i r) b)
          (zipRanges pageCount ranges pages).length 70
          (fun i i' hii => progDiv_mono 60 _ i i' hii)
          (fun i hin => progDiv_ub 60 _ i hin)
          (zipRanges pageCount ranges pages) 0 (by simp)
        simpa using h
      rcases hL : emitLoop j
          (fun i => 10 + i * 60 / (zipRanges pageCount ranges pages).length)
          (fun _ r => "Extrayendo páginas " ++
            joinWith "," ((r.map (fun p => p + 1)).map jsNumToString) ++ "…")
          (fun i r => (saveRange r).map fun b => ZipEntry.mk (zipEntryName (baseOf file.name) i r) b)
          0 (zipRanges pageCount ranges pages)
        with ⟨evs, r⟩
      rw [hL] at hloop
      simp only at hloop
      try rw [hL]
      cases r with
      | error m =>
        exact ⟨5, 70, progBnd_cons hloop le_rfl (by omega) (by omega)⟩
      | ok entries =>
        refine ⟨Event.progress j 5 "Loading PDF…" ::
          (evs ++ [Event.progress j 85 "Creando ZIP…", Event.progress j 100 "Done"]),
          baseOf file.name ++ "_pages.zip", buildZip entries time date, "application/zip",
          5, 100, by simp, ?_⟩
        have h85 : ProgBnd j 70 85 [Event.progress j 85 "Creando ZIP…"] :=
          progBnd_singleton j 85 _ (by omega) (by omega)
        have h100 : ProgBnd j 85 100 [Event.progress j 100 "Done"] :=
          progBnd_singleton j 100 _ (by omega) (by omega)
        have h2 : ProgBnd j 70 100
            [Event.progress j 85 "Creando ZIP…", Event.progress j 100 "Done"] := by
          simpa using progBnd_append h85 h100 (by omega) (by omega)
        have h3 : ProgBnd j 10 100
            (evs ++ [Event.progress j 85 "Creando ZIP…", Event.progress j 100 "Done"]) :=
          progBnd_append hloop h2 (by omega) (by omega)
        exact progBnd_cons h3 le_rfl (by omega) (by omega)
    | single =>
      cases copyMain with
      | error m =>
        refine ⟨5, 40, ?_⟩
        have h40 : ProgBnd j 40 40 [Event.progress j 40 "Extracting pages…"] :=
          progBnd_singleton j 40 _ le_rfl le_rfl
        exact progBnd_cons h40 le_rfl (by omega) (by omega)
      | ok u3 =>
        cases saveMain with
        | error m =>
          refine ⟨5, 80, ?_⟩
          have h40 : ProgBnd j 40 40 [Event.progress j 40 "Extracting pages…"] :=
            progBnd_singleton j 40 _ le_rfl le_rfl
          have h80 : ProgBnd j 40 80 [Event.progress j 80 "Saving…"] :=
            progBnd_singleton j 80 _ (by omega) (by omega)
          have h2 : ProgBnd j 40 80
              [Event.progress j 40 "Extracting pages…", Event.progress j 80 "Saving…"] := by
            simpa using progBnd_append h40 h80 (by omega) (by omega)
          exact progBnd_cons h2 le_rfl (by omega) (by omega)
        | ok b =>
          refine ⟨[Event.progress j 5 "Loading PDF…", Event.progress j 40 "Extracting pages…",
            Event.progress j 80 "Saving…", Event.progress j 100 "Done"],
            "split_pages.pdf", b, "application/pdf", 5, 100, by simp, ?_⟩
          have h40 : ProgBnd j 40 40 [Event.progress j 40 "Extracting pages…"] :=
            progBnd_singleton j 40 _ le_rfl le_rfl
          have h80 : ProgBnd j 40 80 [Event.progress j 80 "Saving…"] :=
            progBnd_singleton j 80 _ (by omega) (by omega)
          have h100 : ProgBnd j 80 100 [Event.progress j 100 "Done"] :=
            progBnd_singleton j 100 _ (by omega) (by omega)
          have h2 : ProgBnd j 40 100
              [Event.progress j 80 "Saving…", Event.progress j 100 "Done"] := by
            simpa using progBnd_append (progBnd_mono h80 le_rfl (by omega)) h100 (by omega) (by omega)
          have h3 : ProgBnd j 40 100
              [Event.progress j 40 "Extracting pages…", Event.progress j 80 "Saving…",
               Event.progress j 100 "Done"] := by
            simpa using progBnd_append h40 h2 (by omega) (by omega)
          exact progBnd_cons h3 le_rfl (by omega) (by omega)

theorem pdf2imgRun_shape (j : String) (file : FileIn) (format : ImgFormat) (dpi : ℚ)
    (dec : Except String Bytes) (openO : Except String Unit) (total : Nat)
    (render : Nat → ℚ → Except String Bytes) (time date : Nat) :
    OpShape j (pdf2imgRun j file format dpi dec openO total render time date) := by
  dsimp only [pdf2imgRun]
  cases dec with
  | error m => exact ⟨5, 5, progBnd_singleton j 5 _ le_rfl le_rfl⟩
  | ok u =>
  cases openO with
  | error m => exact ⟨5, 5, progBnd_singleton j 5 _ le_rfl le_rfl⟩
  | ok u2 =>
  by_cases htot : total = 0
  · rw [if_pos htot]
    exact ⟨5, 5, progBnd_singleton j 5 _ le_rfl le_rfl⟩
  · rw [if_neg htot]
    have hloop : ProgBnd j 10 80
        (emitLoop j (fun i => 10 + i * 70 / total)
          (fun i _ => "Rendering page " ++ natStr (i + 1) ++ "…")
          (fun i _ => (render i (dpi / 72)).map fun d =>
            ZipEntry.mk ("page_" ++ pad3 (natStr (i + 1)) ++ "." ++ fmtExt format) d)
          0 (List.range total)).1 := by
      have h := emitLoop_shape j (fun i => 10 + i * 70 / total)
        (fun i _ => "Rendering page " ++ natStr (i + 1) ++ "…")
        (fun i _ => (render i (dpi / 72)).map fun d =>
          ZipEntry.mk ("page_" ++ pad3 (natStr (i + 1)) ++ "." ++ fmtExt format) d)
        total 80
        (fun i i' hii => progDiv_mono 70 total i i' hii)
        (fun i hin => le_trans (progDiv_ub 70 total i hin) (by omega))
        (List.range total) 0 (by simp)
      simpa using h
    rcases hL : emitLoop j (fun i => 10 + i * 70 / total)
        (fun i _ => "Rendering page " ++ natStr (i + 1) ++ "…")
        (fun i _ => (render i (dpi / 72)).map fun d =>
          ZipEntry.mk ("page_" ++ pad3 (natStr (i + 1)) ++ "." ++ fmtExt format) d)
        0 (List.range total)
      with ⟨evs, r⟩
    rw [hL] at hloop
    simp only at hloop
    try rw [hL]
    cases r with
    | error m =>
      exact ⟨5, 80, progBnd_cons hloop le_rfl (by omega) (by omega)⟩
    | ok entries =>
      refine ⟨Event.progress j 5 "Initializing MuPDF (WASM)…" ::
        (evs ++ [Event.progress j 85 "Packaging ZIP…", Event.progress j 100 "Done"]),
        baseOf file.name ++ "_images_" ++ fmtExt format ++ ".zip",
        buildZip entries time date, "application/zip", 5, 100, by simp, ?_⟩
      have h85 : ProgBnd j 80 85 [Event.progress j 85 "Packaging ZIP…"] :=
        progBnd_singleton j 85 _ (by omega) (by omega)
      have h100 : ProgBnd j 85 100 [Event.progress j 100 "Done"] :=
        progBnd_singleton j 100 _ (by omega) (by omega)
      have h2 : ProgBnd j 80 100
          [Event.progress j 85 "Packaging ZIP…", Event.progress j 100 "Done"] := by
        simpa using progBnd_append h85 h100 (by omega) (by omega)
      have h3 : ProgBnd j 10 100
          (evs ++ [Event.progress j 85 "Packaging ZIP…", Event.progress j 100 "Done"]) :=
        progBnd_append hloop h2 (by omega) (by omega)
      exact progBnd_cons h3 le_rfl (by omega) (by omega)

theorem compressRun_shape (j : String) (runId : Nat) (fs : FS) (file : FileIn) (level : Level)
    (cm : List String → Except String (Option Bytes)) :
    OpShape j ((compressRun j runId fs file level cm).events,
      (compressRun j runId fs file level cm).outcome) := by
  have hp5 : ProgBnd j 5 5 [Event.progress j 5 "Initializing qpdf (WASM)…"] :=
    progBnd_singleton j 5 _ le_rfl le_rfl
  have hp530 : ProgBnd j 5 30
      [Event.progress j 5 "Initializing qpdf (WASM)…", Event.progress j 30 "Rewriting PDF…"] := by
    have h30 : ProgBnd j 30 30 [Event.progress j 30 "Rewriting PDF…"] :=
      progBnd_singleton j 30 _ le_rfl le_rfl
    exact progBnd_cons h30 le_rfl (by omega) (by omega)
  dsimp only [compressRun]
  generalize decryptRun runId fs cm file.bytes file.password (some file.name) = d
  rcases d with ⟨rid, dfs, dout⟩
  cases dout with
  | error m => exact ⟨5, 5, hp5⟩
  | ok unlocked =>
    dsimp only
    generalize cm (qpdfArgs level (inPath (rid + 1)) (outPath (rid + 1))) = w
    cases w with
    | error m => exact ⟨5, 30, hp530⟩
    | ok wo =>
      dsimp only
      cases hre : fsRead (match wo with
          | some ob => fsWrite (fsWrite dfs (inPath (rid + 1)) unlocked) (outPath (rid + 1)) ob
          | none => fsWrite dfs (inPath (rid + 1)) unlocked) (outPath (rid + 1)) with
      | none => exact ⟨5, 30, hp530⟩
      | some ob =>
        refine ⟨[Event.progress j 5 "Initializing qpdf (WASM)…",
          Event.progress j 30 "Rewriting PDF…", Event.progress j 100 "Done"],
          "compressed_" ++ stripPdfExt file.name ++ ".pdf", ob, "application/pdf",
          5, 100, by simp, ?_⟩
        have h100 : ProgBnd j 30 100 [Event.progress j 100 "Done"] :=
          progBnd_singleton j 100 _ (by omega) (by omega)
        have h2 : ProgBnd j 30 100
            [Event.progress j 30 "Rewriting PDF…", Event.progress j 100 "Done"] := by
          have h30 : ProgBnd j 30 30 [Event.progress j 30 "Rewriting PDF…"] :=
            progBnd_singleton j 30 _ le_rfl le_rfl
          simpa using progBnd_append h30 h100 (by omega) (by omega)
        exact progBnd_cons h2 le_rfl (by omega) (by omega)

theorem finish_goodTrace {j : String} {r : List Event × Except String Unit}
    (h : OpShape j r) : GoodTrace j (finish j r) := by
  rcases r with ⟨evs, res⟩
  cases res with
  | error m =>
    obtain ⟨lo, hi, h1, h2, h3⟩ := h
    exact ⟨evs, Event.error j m, by simp [finish], h1, h2, Or.inr ⟨m, rfl⟩⟩
  | ok u =>
    obtain ⟨ps, name, payload, mime, lo, hi, heq, h1, h2, h3⟩ := h
    refine ⟨ps, Event.result j name payload mime, ?_, h1, h2,
      Or.inl ⟨name, payload, mime, rfl⟩⟩
    simp only [finish]
    simpa using heq

/-- C1: for every request the worker accepts (any operation, or an
unrecognized shape), and for every behavior of the external
collaborators, the emitted event sequence for that job's id consists of
zero or more progress events whose percents are non-decreasing, followed
by exactly one terminal event (a result or an error, never both, never
neither), and the terminal event is the last event emitted. -/
theorem job_event_protocol (runId : Nat) (fs : FS) (req : WorkerRequest) (o : Oracles) :
    GoodTrace (reqJobId req) (handleMessage runId fs req o).1 := by
  cases req with
  | merge jobId files =>
    exact finish_goodTrace (mergeRun_shape jobId files o.decM o.loadM o.copyM o.saveM)
  | split jobId file pages ranges output =>
    exact finish_goodTrace (splitRun_shape jobId file pages ranges output o.decS o.loadS
      o.pageCount o.saveRange o.copyMain o.saveMain o.time o.date)
  | compress jobId file level =>
    exact finish_goodTrace (compressRun_shape jobId runId fs file level o.callMain)
  | pdf2img jobId file format dpi =>
    exact finish_goodTrace (pdf2imgRun_shape jobId file format dpi o.decS o.openR
      o.totalPages o.render o.time o.date)
  | other jopt =>
    exact ⟨[], Event.error (jopt.getD "unknown") "Unknown worker request",
      by simp [handleMessage], by simp, by simp, Or.inr ⟨_, rfl⟩⟩

theorem fsHas_true_iff (fs : FS) (p : String) : fsHas fs p = true ↔ ∃ e ∈ fs, e.1 = p := by
  simp [fsHas, List.any_eq_true]

theorem fsHas_false_iff (fs : FS) (p : String) : fsHas fs p = false ↔ ∀ e ∈ fs, e.1 ≠ p := by
  rw [← Bool.not_eq_true, fsHas_true_iff]
  push_neg
  rfl

theorem fsHas_unlink_self (fs : FS) (p : String) : fsHas (fsUnlink fs p) p = false := by
  rw [fsHas_false_iff]
  intro e he
  have := List.mem_filter.mp he
  simpa using this.2

theorem fsHas_unlink_mono (fs : FS) (q p : String) (h : fsHas fs p = false) :
    fsHas (fsUnlink fs q) p = false := by
  rw [fsHas_false_iff] at h ⊢
  intro e he
  exact h e (List.mem_filter.mp he).1

theorem fsHas_write_self (fs : FS) (p : String) (b : Bytes) :
    fsHas (fsWrite fs p b) p = true := by
  rw [fsHas_true_iff]
  exact ⟨(p, b), List.mem_cons_self _ _, rfl⟩

theorem fsHas_write_other_true (fs : FS) (p q : String) (b : Bytes) (hpq : p ≠ q)
    (h : fsHas fs p = true) : fsHas (fsWrite fs q b) p = true := by
  rw [fsHas_true_iff] at h ⊢
  obtain ⟨e, he, hep⟩ := h
  refine ⟨e, List.mem_cons_of_mem _ (List.mem_filter.mpr ⟨he, ?_⟩), hep⟩
  simp [hep, hpq]

theorem fsHas_cleanup_in (fs : FS) (i o : String) : fsHas (fsCleanup fs i o) i = false := by
  rw [fsCleanup]
  by_cases h : fsHas fs i = true
  · rw [if_pos h]
    by_cases h2 : fsHas (fsUnlink fs i) o = true
    · rw [if_pos h2]
      exact fsHas_unlink_mono _ _ _ (fsHas_unlink_self fs i)
    · rw [if_neg h2]
      exact fsHas_unlink_self fs i
  · rw [if_neg h]
    exact eq_false_of_ne_true h

theorem fsHas_cleanup_out (fs : FS) (i o : String) (hi : fsHas fs i = true) :
    fsHas (fsCleanup fs i o) o = false := by
  rw [fsCleanup, if_pos hi]
  by_cases h2 : fsHas (fsUnlink fs i) o = true
  · rw [if_pos h2]
    exact fsHas_unlink_self _ o
  · rw [if_neg h2]
    exact eq_false_of_ne_true h2

theorem inPath_ne_outPath (id : Nat) : inPath id ≠ outPath id := by
  intro h
  have hd := congrArg String.data h
  rw [inPath, outPath, String.data_append, String.data_append,
    String.data_append, String.data_append] at hd
  have h1 : ("/in/in_" : String).data = ['/', 'i', 'n', '/', 'i', 'n', '_'] := rfl
  have h2 : ("/out/out_" : String).data = ['/', 'o', 'u', 't', '/', 'o', 'u', 't', '_'] := rfl
  rw [h1, h2] at hd
  simp only [List.cons_append, List.cons.injEq] at hd
  exact absurd hd.2.1 (by decide)

/-- Working-storage discipline of the decrypt adapter: whatever the
engine oracle does, after `decryptRun` neither the input nor the output
working file of this call is present (the `finally` block). -/
theorem decryptRun_cleanup (runId : Nat) (fs : FS)
    (cm : List String → Except String (Option Bytes)) (bytes : Bytes)
    (password : Option String) (label : Option String) :
    fsHas (decryptRun runId fs cm bytes password label).fs (inPath (runId + 1)) = false ∧
    fsHas (decryptRun runId fs cm bytes password label).fs (outPath (runId + 1)) = false := by
  dsimp only [decryptRun]
  have hw : fsHas (fsWrite fs (inPath (runId + 1)) bytes) (inPath (runId + 1)) = true :=
    fsHas_write_self fs _ bytes
  cases cm (decryptArgs password (inPath (runId + 1)) (outPath (runId + 1))) with
  | error m =>
    exact ⟨fsHas_cleanup_in _ _ _, fsHas_cleanup_out _ _ _ hw⟩
  | ok w =>
    cases w with
    | none =>
      dsimp only
      cases hr : fsRead (fsWrite fs (inPath (runId + 1)) bytes) (outPath (runId + 1)) with
      | some ob => exact ⟨fsHas_cleanup_in _ _ _, fsHas_cleanup_out _ _ _ hw⟩
      | none => exact ⟨fsHas_cleanup_in _ _ _, fsHas_cleanup_out _ _ _ hw⟩
    | some ob =>
      dsimp only
      have hw2 : fsHas (fsWrite (fsWrite fs (inPath (runId + 1)) bytes)
          (outPath (runId + 1)) ob) (inPath (runId + 1)) = true :=
        fsHas_write_other_true _ _ _ ob (inPath_ne_outPath _) hw
      cases hr : fsRead (fsWrite (fsWrite fs (inPath (runId + 1)) bytes)
          (outPath (runId + 1)) ob) (outPath (runId + 1)) with
      | some ob2 => exact ⟨fsHas_cleanup_in _ _ _, fsHas_cleanup_out _ _ _ hw2⟩
      | none => exact ⟨fsHas_cleanup_in _ _ _, fsHas_cleanup_out _ _ _ hw2⟩

deriving instance DecidableEq for Except

/-- C3 (code bug): when the rewrite produces no readable output file,
`compress` throws its missing-output error before reaching its unlink
calls, so the input working file of the compress step is left behind in
working storage — cleanup is not unconditional.  By contrast, `decryptPdf`
(whose cleanup sits in a `finally`) removes its working files in the
same no-output situation. -/
theorem compress_leaks_working_file :
    (compressRun "j" 0 [] (FileIn.mk "a.pdf" [1, 2] none) Level.balanced
      (fun args => if args.head? = some "--decrypt" then Except.ok (some [3, 4])
        else Except.ok none)).outcome =
      Except.error "qpdf-wasm returned no output (out.pdf missing)." ∧
    fsHas (compressRun "j" 0 [] (FileIn.mk "a.pdf" [1, 2] none) Level.balanced
      (fun args => if args.head? = some "--decrypt" then Except.ok (some [3, 4])
        else Except.ok none)).fs (inPath 2) = true ∧
    fsHas (decryptRun 0 [] (fun _ => Except.ok none) [1, 2] none (some "a.pdf")).fs
      (inPath 1) = false := by decide

/-- C9: when the decrypt engine throws, the adapter reports the distinct
protected-content error exactly when the diagnostic is password-related
(`/password/i`), and the generic open-failure error otherwise; the two
error messages are distinguishable for any labels and diagnostic. -/
theorem decrypt_protected_error (runId : Nat) (fs : FS) (bytes : Bytes)
    (password : Option String) (label : Option String) (msg : String) :
    ((containsCI msg "password" = true →
      (decryptRun runId fs (fun _ => Except.error msg) bytes password label).outcome =
        Except.error (protectedMsg (label.getD "PDF"))) ∧
     (containsCI msg "password" = false →
      (decryptRun runId fs (fun _ => Except.error msg) bytes password label).outcome =
        Except.error (openFailMsg (label.getD "PDF") msg))) ∧
    ∀ lbl lbl2 m, protectedMsg lbl ≠ openFailMsg lbl2 m := by
  constructor
  · constructor
    · intro h
      dsimp only [decryptRun]
      rw [show decryptErrMsg (label.getD "PDF") msg = protectedMsg (label.getD "PDF") by
        rw [decryptErrMsg, if_pos h]; rfl]
    · intro h
      dsimp only [decryptRun]
      rw [show decryptErrMsg (label.getD "PDF") msg = openFailMsg (label.getD "PDF") msg by
        rw [decryptErrMsg, if_neg (by simp [h])]; rfl]
  · intro lbl lbl2 m h
    have hd := congrArg String.data h
    rw [protectedMsg, openFailMsg] at hd
    simp only [String.data_append] at hd
    simp only [List.cons_append, List.nil_append, List.append_assoc,
      List.cons.injEq] at hd
    exact absurd hd.1 (by decide)

theorem decrypt_protected_error_witness :
    (decryptRun 0 [] (fun _ => Except.error "invalid password") [1] (some "pw")
      (some "a.pdf")).outcome = Except.error (protectedMsg "a.pdf") ∧
    (decryptRun 0 [] (fun _ => Except.error "disk failure") [1] (some "pw")
      (some "a.pdf")).outcome = Except.error (openFailMsg "a.pdf" "disk failure") ∧
    protectedMsg "a.pdf" ≠ openFailMsg "x" "y" :=
  ⟨(decrypt_protected_error 0 [] [1] (some "pw") (some "a.pdf") "invalid password").1.1
      (by decide),
   (decrypt_protected_error 0 [] [1] (some "pw") (some "a.pdf") "disk failure").1.2
      (by decide),
   (decrypt_protected_error 0 [] [1] (some "pw") (some "a.pdf") "x").2 "a.pdf" "x" "y"⟩

theorem collectTokens_vals : ∀ (toks : List (List Char)) (q : ℚ), q ∈ collectTokens toks →
    0 ≤ q ∧ (0 < q ∨ ∃ n : ℕ, q = (n : ℚ)) := by
  intro toks
  induction toks with
  | nil =>
    intro q hq
    simp [collectTokens] at hq
  | cons t rest ih =>
    intro q hq
    dsimp only [collectTokens] at hq
    by_cases hp : trimChars t = []
    · rw [if_pos hp] at hq
      exact ih q hq
    · rw [if_neg hp] at hq
      cases hpr : parseRange (trimChars t) with
      | some ab =>
        obtain ⟨a, b⟩ := ab
        rw [hpr] at hq
        dsimp only at hq
        rcases List.mem_append.mp hq with h | h
        · simp only [List.mem_map] at h
          obtain ⟨n, hn, hc⟩ := h
          subst hc
          exact ⟨Nat.cast_nonneg n, Or.inr ⟨n, rfl⟩⟩
        · exact ih q h
      | none =>
        rw [hpr] at hq
        dsimp only at hq
        cases hjf : jsFiniteNumber (trimChars t) with
        | some v =>
          rw [hjf] at hq
          dsimp only at hq
          by_cases hv : 0 < v
          · rw [if_pos hv] at hq
            rcases List.mem_cons.mp hq with rfl | h
            · exact ⟨le_of_lt hv, Or.inl hv⟩
            · exact ih q h
          · rw [if_neg hv] at hq
            exact ih q hq
        | none =>
          rw [hjf] at hq
          exact ih q hq

/-- C2 (amended): for every input string the parser returns a strictly
ascending (hence duplicate-free) sequence of non-negative numbers; every
element is either strictly positive (a kept standalone numeric token,
possibly fractional) or a whole number contributed by range expansion
(which performs no positivity filtering, so 0 can appear); the empty
string yields the empty list. -/
theorem parsePageList_normalized :
    (∀ s : String, (parsePageList s).Sorted (fun a b => a < b) ∧
      ∀ q ∈ parsePageList s, 0 ≤ q ∧ (0 < q ∨ ∃ n : ℕ, q = (n : ℚ))) ∧
    parsePageList "" = [] := by
  constructor
  · intro s
    refine ⟨sortDedup_sorted_lt _, ?_⟩
    intro q hq
    exact collectTokens_vals _ q (mem_sortDedup.mp hq)
  · decide

theorem parsePageList_normalized_witness :
    (parsePageList "3,1,2").Sorted (fun a b => a < b) ∧
    (0 ≤ (1 : ℚ) ∧ (0 < (1 : ℚ) ∨ ∃ n : ℕ, (1 : ℚ) = (n : ℚ))) ∧
    parsePageList "" = [] :=
  ⟨(parsePageList_normalized.1 "3,1,2").1,
   (parsePageList_normalized.1 "3,1,2").2 1 (by decide),
   parsePageList_normalized.2⟩

/-- C2 counterexample: the range token `0-2` expands to 0, 1, 2 without
discarding the non-positive page 0, and the standalone token `1.5` is
kept as the non-integer 3/2 — so the output is not always a sequence of
strictly positive integers. -/
theorem parsePageList_claim_false :
    parsePageList "0-2" = [0, 1, 2] ∧ (0 : ℚ) ∈ parsePageList "0-2" ∧ ¬ (0 : ℚ) < 0 ∧
    parsePageList "1.5" = [3 / 2] ∧ ¬ ∃ n : ℕ, ((3 : ℚ) / 2) = (n : ℚ) := by
  refine ⟨by decide, by decide, by decide, by decide, ?_⟩
  rintro ⟨n, hn⟩
  have hd : ((3 : ℚ) / 2).den = 2 := by decide
  rw [hn] at hd
  simp [Rat.den_natCast] at hd

/-- C4: submitting a combine job with fewer than two selected files is
rejected by the validation guards (with the corresponding alert), and no
request is posted to the worker — so no collaborator is ever invoked. -/
theorem merge_requires_two_inputs (files : List UIFile) (jobId : String) (lvl : Level)
    (sp : String) (so : OutputMode) (fmt : ImgFormat) (dpi : ℚ)
    (h : files.length < 2) :
    runJob ToolId.merge files jobId lvl sp so fmt dpi =
      SubmitResult.rejected
        (if files = [] then "Add PDFs first." else "Merge needs at least 2 PDFs.") ∧
    toWorker (runJob ToolId.merge files jobId lvl sp so fmt dpi) = none := by
  have heq : runJob ToolId.merge files jobId lvl sp so fmt dpi =
      SubmitResult.rejected
        (if files = [] then "Add PDFs first." else "Merge needs at least 2 PDFs.") := by
    cases files with
    | nil => rfl
    | cons f rest =>
      have hr : rest = [] := by
        simp only [List.length_cons] at h
        exact List.length_eq_zero.mp (by omega)
      subst hr
      dsimp only [runJob]
      rw [if_pos ⟨rfl, rfl⟩, if_neg (by simp)]
  exact ⟨heq, by rw [heq]; rfl⟩

theorem merge_requires_two_inputs_witness :
    runJob ToolId.merge [UIFile.mk "a.pdf" [1]] "j" Level.balanced "1" OutputMode.single
      ImgFormat.png 150 = SubmitResult.rejected "Merge needs at least 2 PDFs." ∧
    toWorker (runJob ToolId.merge [UIFile.mk "a.pdf" [1]] "j" Level.balanced "1"
      OutputMode.single ImgFormat.png 150) = none := by
  have h := merge_requires_two_inputs [UIFile.mk "a.pdf" [1]] "j" Level.balanced "1"
    OutputMode.single ImgFormat.png 150 (by decide)
  simpa using h

/-- C5: archive-mode extraction produces one entry per surviving page
group: the compact label formats 1,2,3,10 as `p1-3_p10`; an absent group
list falls back to the flat selection as a single group; the concrete
groups [[1],[3,4]] on a 5-page document give exactly two entries named
`doc_p1.pdf` and `doc_p3-4.pdf`; and whenever every supplied group
survives normalization the entry count equals the group count. -/
theorem split_archive_grouping :
    formatRangeLabel [1, 2, 3, 10] = "p1-3_p10" ∧
    (∀ (pageCount : Nat) (pages : List ℚ),
      zipRanges pageCount [] pages = zipRanges pageCount [pages] pages) ∧
    (zipRanges 5 [[1], [3, 4]] [1, 3, 4]).length = 2 ∧
    zipEntryName "doc" 0 (normalize 5 [1]) = "doc_p1.pdf" ∧
    zipEntryName "doc" 1 (normalize 5 [3, 4]) = "doc_p3-4.pdf" ∧
    ∀ (pageCount : Nat) (ranges : List (List ℚ)) (pages : List ℚ),
      ranges ≠ [] → (∀ g ∈ ranges, normalize pageCount g ≠ []) →
      (zipRanges pageCount ranges pages).length = ranges.length := by
  refine ⟨by decide, ?_, by decide, by decide, by decide, ?_⟩
  · intro pageCount pages
    simp [zipRanges]
  · intro pageCount ranges pages hne hall
    rw [zipRanges, if_neg hne]
    rw [List.filter_eq_self.mpr ?_, List.length_map]
    intro r hr
    simp only [List.mem_map] at hr
    obtain ⟨g, hg, rfl⟩ := hr
    simpa [List.isEmpty_iff] using hall g hg

theorem split_archive_grouping_witness :
    formatRangeLabel [1, 2, 3, 10] = "p1-3_p10" ∧
    (zipRanges 5 [[1], [3, 4]] [1, 3, 4]).length = 2 :=
  ⟨split_archive_grouping.1, by
    have h := split_archive_grouping.2.2.2.2.2 5 [[1], [3, 4]] [1, 3, 4]
      (by decide) (by decide)
    simpa using h⟩

theorem mem_normalize {pageCount : Nat} {pages : List ℚ} {x : ℚ} :
    x ∈ normalize pageCount pages ↔
      (x + 1) ∈ pages ∧ 0 ≤ x ∧ x < (pageCount : ℚ) := by
  rw [normalize, mem_sortDedup, List.mem_filter]
  constructor
  · rintro ⟨hmap, hpred⟩
    simp only [List.mem_map] at hmap
    obtain ⟨p, hp, rfl⟩ := hmap
    have h := of_decide_eq_true hpred
    refine ⟨?_, h.1, h.2⟩
    have hpe : p - 1 + 1 = p := by ring
    rw [hpe]
    exact hp
  · rintro ⟨hmem, h0, hc⟩
    refine ⟨?_, decide_eq_true ⟨h0, hc⟩⟩
    simp only [List.mem_map]
    exact ⟨x + 1, hmem, by ring⟩

theorem emitLoop_ok_of_body_ok {α β : Type} (j : String) (g : Nat → Nat)
    (note : Nat → α → String) (body : Nat → α → Except String β)
    (hok : ∀ i a, ∃ b, body i a = Except.ok b) :
    ∀ (rest : List α) (i : Nat), ∃ bs, (emitLoop j g note body i rest).2 = Except.ok bs := by
  intro rest
  induction rest with
  | nil => intro i; exact ⟨[], rfl⟩
  | cons a as ih =>
    intro i
    obtain ⟨b, hb⟩ := hok i a
    obtain ⟨bs, hbs⟩ := ih (i + 1)
    simp only [emitLoop, hb]
    rcases hr : emitLoop j g note body (i + 1) as with ⟨evs, r⟩
    rw [hr] at hbs
    simp only at hbs
    subst hbs
    exact ⟨b :: bs, rfl⟩

/-- C6: with the collaborators succeeding, extraction terminates with
the validation error exactly when the flat selection, normalized against
the page count, is empty (otherwise it completes normally); and the
normalized selection retains exactly the in-range requested pages
(out-of-range pages are dropped without error). -/
theorem split_error_iff_empty_selection (jobId : String) (file : FileIn) (pages : List ℚ)
    (ranges : List (List ℚ)) (output : OutputMode) (u : Bytes) (pageCount : Nat)
    (saveB : List ℚ → Bytes) (bM : Bytes) (time date : Nat) :
    ((splitRun jobId file pages ranges output (Except.ok u) (Except.ok ()) pageCount
        (fun r => Except.ok (saveB r)) (Except.ok ()) (Except.ok bM) time date).2 =
      (if normalize pageCount pages = [] then Except.error "No valid pages selected."
       else Except.ok ())) ∧
    ∀ x : ℚ, x ∈ normalize pageCount pages ↔
      ((x + 1) ∈ pages ∧ 0 ≤ x ∧ x < (pageCount : ℚ)) := by
  refine ⟨?_, fun x => mem_normalize⟩
  dsimp only [splitRun]
  by_cases he : normalize pageCount pages = []
  · rw [if_pos (by simp [he]), if_pos he]
  · rw [if_neg (by simp [List.isEmpty_iff, he]), if_neg he]
    cases output with
    | zip =>
      obtain ⟨bs, hbs⟩ := emitLoop_ok_of_body_ok jobId
        (fun i => 10 + i * 60 / (zipRanges pageCount ranges pages).length)
        (fun _ r => "Extrayendo páginas " ++
          joinWith "," ((r.map (fun p => p + 1)).map jsNumToString) ++ "…")
        (fun i r => (Except.ok (saveB r)).map fun b =>
          ZipEntry.mk (zipEntryName (baseOf file.name) i r) b)
        (fun i a => ⟨ZipEntry.mk (zipEntryName (baseOf file.name) i a) (saveB a), rfl⟩)
        (zipRanges pageCount ranges pages) 0
      rcases hL : emitLoop jobId
          (fun i => 10 + i * 60 / (zipRanges pageCount ranges pages).length)
          (fun _ r => "Extrayendo páginas " ++
            joinWith "," ((r.map (fun p => p + 1)).map jsNumToString) ++ "…")
          (fun i r => (Except.ok (saveB r)).map fun b =>
            ZipEntry.mk (zipEntryName (baseOf file.name) i r) b)
          0 (zipRanges pageCount ranges pages)
        with ⟨evs, r⟩
      rw [hL] at hbs
      simp only at hbs
      subst hbs
      rw [hL]
    | single => rfl

/-- C10: in archive mode, when the flat selection survives
normalization but every supplied group normalizes to the empty set, the
job completes with a Result whose payload is the archive of zero
entries — no Error is produced. -/
theorem split_archive_empty_groups_result (jobId : String) (file : FileIn) (pages : List ℚ)
    (ranges : List (List ℚ)) (u : Bytes) (pageCount : Nat) (saveB : List ℚ → Bytes)
    (bM : Bytes) (time date : Nat)
    (hflat : normalize pageCount pages ≠ [])
    (hne : ranges ≠ [])
    (hall : ∀ g ∈ ranges, normalize pageCount g = []) :
    splitRun jobId file pages ranges OutputMode.zip (Except.ok u) (Except.ok ()) pageCount
      (fun r => Except.ok (saveB r)) (Except.ok ()) (Except.ok bM) time date =
    ([Event.progress jobId 5 "Loading PDF…", Event.progress jobId 85 "Creando ZIP…",
      Event.progress jobId 100 "Done",
      Event.result jobId (baseOf file.name ++ "_pages.zip") (buildZip [] time date)
        "application/zip"], Except.ok ()) := by
  have hzr : zipRanges pageCount ranges pages = [] := by
    rw [zipRanges, if_neg hne]
    rw [List.filter_eq_nil_iff]
    intro r hr
    simp only [List.mem_map] at hr
    obtain ⟨g, hg, rfl⟩ := hr
    simp [List.isEmpty_iff, hall g hg]
  dsimp only [splitRun]
  rw [if_neg (by simp [List.isEmpty_iff, hflat]), hzr]
  rfl

theorem split_archive_empty_groups_result_witness :
    splitRun "j" (FileIn.mk "a.pdf" [] none) [1] [[10]] OutputMode.zip (Except.ok [])
      (Except.ok ()) 5 (fun _ => Except.ok []) (Except.ok ()) (Except.ok []) 0 0 =
    ([Event.progress "j" 5 "Loading PDF…", Event.progress "j" 85 "Creando ZIP…",
      Event.progress "j" 100 "Done",
      Event.result "j" (baseOf "a.pdf" ++ "_pages.zip") (buildZip [] 0 0)
        "application/zip"], Except.ok ()) :=
  split_archive_empty_groups_result "j" (FileIn.mk "a.pdf" [] none) [1] [[10]] [] 5
    (fun _ => []) [] 0 0 (by decide) (by decide) (by decide)

/-- C7: the shrink tier parameter is accepted but has no observable
effect: every tier yields the identical qpdf argument list, and the
whole compress run (its events, outcome, counter and file system) is
identical for any two tiers. -/
theorem compress_tier_no_effect (jobId : String) (runId : Nat) (fs : FS) (file : FileIn)
    (l1 l2 : Level) (cm : List String → Except String (Option Bytes)) :
    (∀ inP outP, qpdfArgs l1 inP outP = qpdfArgs l2 inP outP) ∧
    compressRun jobId runId fs file l1 cm = compressRun jobId runId fs file l2 cm := by
  constructor
  · intro inP outP
    cases l1 <;> cases l2 <;> rfl
  · cases l1 <;> cases l2 <;> rfl

/-- C8: the archive encoder applied to the empty entry list produces
exactly one end-of-directory record: the little-endian signature, zero
disk fields, entry count 0 in both count fields, central-directory size
0 and directory offset 0, and an empty comment — 22 bytes in total. -/
theorem buildZip_empty (time date : Nat) :
    buildZip [] time date =
      le32 0x06054b50 ++ le16 0 ++ le16 0 ++ le16 0 ++ le16 0 ++ le32 0 ++ le32 0 ++ le16 0 ∧
    (buildZip [] time date).length = 22 :=
  ⟨rfl, rfl⟩

end

end PdfTool
